import Mathlib

/-!
Verification of the Intelligence Extraction & Conversation State
Reconciliation core of the Agentic-HoneyPot-for-Scam-Detection repository.

The definitions below are a shallow embedding of
`src/Honeypot_AI/honeypot_gemini/extractor.py` (regex recognizers and
`extract_intelligence`) and of the conversation-state machinery of
`src/Honeypot_AI/honeypot_gemini/honeypot.py` (`ConversationState`,
`_extract_and_merge`, `add_message`, `rebuild_from_history`,
`get_or_create_session`, `has_valuable_intelligence`, `send_guvi_callback`,
`process_scam_message`).

Python's `re.findall` is embedded as a left-to-right scanner that, at each
position, runs a hand-translated backtracking matcher for the concrete
pattern and, on success, records the match and resumes after it (matches are
non-overlapping, exactly as `re.findall`).  Character classes are the ASCII
fragment of Python's `\d`, `\w`, `\s`.  `list(set(xs))` is modelled as
first-occurrence deduplication (Python's set iteration order is
unspecified; every property proved here is order-insensitive).  The
external collaborators (Gemini classification, reply generation, the HTTP
POST of the GUVI callback) are modelled as explicit input parameters
carrying their observable outcome.
-/

namespace Honeypot

/-! ### Character classes (ASCII fragment of the Python `re` classes) -/

/-- Python `\d` (ASCII): `'0'..'9'`. -/
def isDigitCh (c : Char) : Bool := 48 ≤ c.toNat && c.toNat ≤ 57

/-- `A`–`Z`. -/
def isUpperCh (c : Char) : Bool := 65 ≤ c.toNat && c.toNat ≤ 90

/-- `a`–`z`. -/
def isLowerCh (c : Char) : Bool := 97 ≤ c.toNat && c.toNat ≤ 122

/-- `[a-zA-Z]`. -/
def isAlphaCh (c : Char) : Bool := isUpperCh c || isLowerCh c

/-- `[a-zA-Z0-9]`. -/
def isAlnumCh (c : Char) : Bool := isAlphaCh c || isDigitCh c

/-- Python `\s` (ASCII): space, `\t`, `\n`, `\v`, `\f`, `\r`. -/
def isSpaceCh (c : Char) : Bool := c.toNat = 32 || (9 ≤ c.toNat && c.toNat ≤ 13)

/-- Python `\w` (ASCII): `[a-zA-Z0-9_]`. -/
def isWordCh (c : Char) : Bool := isAlphaCh c || isDigitCh c || c = '_'

/-- Word-character test on an optional character (`none` = out of the text,
which counts as a non-word position for `\b`). -/
def isWordOpt : Option Char → Bool
  | none => false
  | some c => isWordCh c

/-- Python `\b`: a word boundary sits between two positions exactly when one
side is a word character and the other is not (or is out of the text). -/
def atBoundary (prev next : Option Char) : Bool :=
  xor (isWordOpt prev) (isWordOpt next)

/-- ASCII lower-casing of one character (the fragment of `str.lower` /
`re.IGNORECASE` exercised by the source's patterns). -/
def toLowerCh (c : Char) : Char :=
  if 65 ≤ c.toNat && c.toNat ≤ 90 then Char.ofNat (c.toNat + 32) else c

/-- ASCII lower-casing of a string (Python `str.lower`). -/
def strLower (s : String) : String := ⟨s.data.map toLowerCh⟩

/-- Case-insensitively match the literal `lit` at the head of `cs`,
returning the consumed text characters and the remainder. -/
def stripCI : List Char → List Char → Option (List Char × List Char)
  | [], cs => some ([], cs)
  | _ :: _, [] => none
  | p :: ps, c :: cs =>
    if toLowerCh c = toLowerCh p then
      (stripCI ps cs).map (fun r => (c :: r.1, r.2))
    else none

/-! ### `re.findall` driver

A matcher takes the character immediately before the current position (for
`\b`) and the remaining text, and returns the matched characters together
with the remaining text after the match.  The driver tries the matcher at
every position from the left; on success it records the match and resumes
immediately after it. -/

def scanAux (f : Option Char → List Char → Option (List Char × List Char)) :
    Nat → Option Char → List Char → List (List Char)
  | 0, _, _ => []
  | _ + 1, _, [] => []
  | fuel + 1, prev, c :: cs =>
    match f prev (c :: cs) with
    | some (m, rest) =>
      if m.isEmpty then scanAux f fuel (some c) cs
      else m :: scanAux f fuel (some (m.getLastD c)) rest
    | none => scanAux f fuel (some c) cs

/-- `re.findall(pattern, text)` for a pattern embodied by the matcher `f`. -/
def findAll (f : Option Char → List Char → Option (List Char × List Char))
    (text : String) : List String :=
  (scanAux f (text.data.length + 1) none text.data).map (fun l => (⟨l⟩ : String))

/-! ### Set-style merging

`mergeVal` is the source's "append if not already present" idiom; `pyDedup`
models Python's `list(set(xs))` up to order (first-occurrence order). -/

def mergeVal (l : List String) (x : String) : List String :=
  if x ∈ l then l else l ++ [x]

def mergeList (l : List String) (xs : List String) : List String :=
  xs.foldl mergeVal l

/-- `list(set(xs))`, modelled with first-occurrence order. -/
def pyDedup (xs : List String) : List String := mergeList [] xs

/-! ### Pattern matchers, one per regex of `extractor.py` -/

/-- `BANK_ACCOUNT_PATTERN = r'\b\d{9,18}\b'`.
At a position: `\b` then 9–18 digits then `\b`.  The greedy `\d{9,18}` with
the trailing `\b` succeeds exactly on a maximal digit run of length 9–18
whose flanks are non-word (shorter backtracked lengths always end before a
digit, hence fail the boundary). -/
def tryBank (prev : Option Char) (rest : List Char) :
    Option (List Char × List Char) :=
  match rest with
  | [] => none
  | c :: _ =>
    if isDigitCh c && !isWordOpt prev then
      let run := rest.takeWhile isDigitCh
      let after := rest.drop run.length
      if 9 ≤ run.length && run.length ≤ 18 && !isWordOpt after.head? then
        some (run, after)
      else none
    else none

/-- `UPI_ID_PATTERN = r'\b[a-zA-Z0-9._-]+@[a-zA-Z]{2,}\b'` (IGNORECASE is a
no-op: both classes already contain both cases). -/
def isUpiLocalCh (c : Char) : Bool :=
  isAlnumCh c || c = '.' || c = '_' || c = '-'

def tryUpi (prev : Option Char) (rest : List Char) :
    Option (List Char × List Char) :=
  match rest with
  | [] => none
  | c :: _ =>
    if isUpiLocalCh c && atBoundary prev (some c) then
      -- greedy local part; `@` is not in the class, so no backtracking
      let lcl := rest.takeWhile isUpiLocalCh
      match rest.drop lcl.length with
      | '@' :: r2 =>
        -- greedy `[a-zA-Z]{2,}` then `\b`: only the maximal letter run can
        -- end at a boundary (shorter lengths end before a letter)
        let dom := r2.takeWhile isAlphaCh
        if 2 ≤ dom.length && !isWordOpt ((r2.drop dom.length).head?) then
          some (lcl ++ '@' :: dom, r2.drop dom.length)
        else none
      | _ => none
    else none

/-- Separator class `[\-\s]` of the phone pattern. -/
def isSepCh (c : Char) : Bool := c = '-' || isSpaceCh c

/-- The mandatory tail `[6-9]\d{9}\b` of `PHONE_PATTERN`. -/
def tryPhoneCore (cs : List Char) : Option (List Char × List Char) :=
  match cs with
  | [] => none
  | c :: rest =>
    if 54 ≤ c.toNat && c.toNat ≤ 57 then   -- `[6-9]`
      let ds := rest.take 9
      let after := rest.drop 9
      if ds.length = 9 && ds.all isDigitCh && !isWordOpt after.head? then
        some (c :: ds, after)
      else none
    else none

/-- Prepend already-consumed prefix characters to a core match. -/
def addPre (pre : List Char) (r : Option (List Char × List Char)) :
    Option (List Char × List Char) :=
  r.map (fun p => (pre ++ p.1, p.2))

/-- `PHONE_PATTERN = r'(?:\+91[\-\s]?|91[\-\s]?)?[6-9]\d{9}\b'`.
The optional group is tried greedily, alternatives in source order, the
optional separator greedily; there is no `\b` at the start. -/
def tryPhone (rest : List Char) : Option (List Char × List Char) :=
  match rest with
  | '+' :: '9' :: '1' :: cs =>
    -- `\+91[\-\s]?` (with, then without, the separator); the other
    -- alternatives and the empty prefix cannot match text starting `+`
    (match cs with
     | s :: cs' =>
       if isSepCh s then
         addPre ['+', '9', '1', s] (tryPhoneCore cs') <|>
           addPre ['+', '9', '1'] (tryPhoneCore cs)
       else addPre ['+', '9', '1'] (tryPhoneCore cs)
     | [] => none)
  | '9' :: '1' :: cs =>
    -- `91[\-\s]?`, then (on failure) the empty prefix at the same position
    (match cs with
     | s :: cs' =>
       if isSepCh s then
         addPre ['9', '1', s] (tryPhoneCore cs') <|>
           addPre ['9', '1'] (tryPhoneCore cs) <|>
           tryPhoneCore ('9' :: '1' :: cs)
       else
         addPre ['9', '1'] (tryPhoneCore cs) <|>
           tryPhoneCore ('9' :: '1' :: cs)
     | [] => tryPhoneCore ['9', '1'])
  | cs => tryPhoneCore cs

/-- The character class `[^\s<>"{}|\\^`\[\]]` of `URL_PATTERN`
(every character except whitespace and the listed delimiters). -/
def isUrlCh (c : Char) : Bool :=
  !(isSpaceCh c || c = '<' || c = '>' || c = '"' || c = Char.ofNat 123 ||
    c = Char.ofNat 125 || c = '|' || c = '\\' || c = '^' ||
    c = Char.ofNat 96 || c = '[' || c = ']')

/-- `://` followed by one or more URL characters (greedy, no trailing
constraint). -/
def tryUrlTail (lit : List Char) (r : List Char) :
    Option (List Char × List Char) :=
  match stripCI "://".data r with
  | some (sep, r2) =>
    let run := r2.takeWhile isUrlCh
    if 1 ≤ run.length then some (lit ++ sep ++ run, r2.drop run.length)
    else none
  | none => none

/-- `URL_PATTERN = r'https?://[^…]+|www\.[^…]+'` with IGNORECASE. -/
def tryUrl (rest : List Char) : Option (List Char × List Char) :=
  (match stripCI "http".data rest with
   | some (h, r1) =>
     (match r1 with
      | c :: r2 =>
        if toLowerCh c = 's' then tryUrlTail (h ++ [c]) r2 <|> tryUrlTail h r1
        else tryUrlTail h r1
      | [] => none)
   | none => none)
  <|>
  (match stripCI "www.".data rest with
   | some (w, r1) =>
     let run := r1.takeWhile isUrlCh
     if 1 ≤ run.length then some (w ++ run, r1.drop run.length) else none
   | none => none)

/-- The short-link hosts of `SHORT_URL_PATTERN`, in source order. -/
def SHORT_HOSTS : List String :=
  ["bit.ly", "tinyurl.com", "goo.gl", "t.co", "is.gd", "buff.ly", "ow.ly",
   "rebrand.ly"]

/-- One alternative `host/[a-zA-Z0-9]+` of `SHORT_URL_PATTERN`, with the
surrounding `\b`s (every host starts with a letter, so the leading `\b`
requires a non-word predecessor; the trailing `\b` forces the maximal
alphanumeric run followed by a non-word character). -/
def tryShortWith (host : List Char) (prev : Option Char) (rest : List Char) :
    Option (List Char × List Char) :=
  if !isWordOpt prev then
    match stripCI host rest with
    | some (h, r1) =>
      match r1 with
      | '/' :: r2 =>
        let run := r2.takeWhile isAlnumCh
        if 1 ≤ run.length && !isWordOpt ((r2.drop run.length).head?) then
          some (h ++ '/' :: run, r2.drop run.length)
        else none
      | _ => none
    | none => none
  else none

/-- `SHORT_URL_PATTERN` with IGNORECASE: first alternative that matches. -/
def tryShort (prev : Option Char) (rest : List Char) :
    Option (List Char × List Char) :=
  SHORT_HOSTS.foldr (fun hst acc => tryShortWith hst.data prev rest <|> acc)
    none

/-- Local-part class `[A-Za-z0-9._%+-]` of `EMAIL_PATTERN`. -/
def isEmailLocalCh (c : Char) : Bool :=
  isAlnumCh c || c = '.' || c = '_' || c = '%' || c = '+' || c = '-'

/-- Domain class `[A-Za-z0-9.-]` of `EMAIL_PATTERN`. -/
def isEmailDomCh (c : Char) : Bool := isAlnumCh c || c = '.' || c = '-'

/-- TLD class `[A-Z|a-z]` of `EMAIL_PATTERN` (the literal `|` is part of the
class as written in the source). -/
def isTldCh (c : Char) : Bool := isAlphaCh c || c = '|'

/-- Backtracking search for the `{2,}` + `\b` tail of `EMAIL_PATTERN`: given
the maximal TLD-class run `t` and the character right after it, find the
longest length `j ≥ 2` whose end sits on a word boundary. -/
def tryTldLen (t : List Char) (afterT : Option Char) : Nat → Option Nat
  | 0 => none
  | 1 => none
  | j + 1 =>
    if j + 1 ≤ t.length then
      let last := t[j]?
      let next := if j + 1 < t.length then t[j + 1]? else afterT
      match last with
      | some lc =>
        if xor (isWordCh lc) (isWordOpt next) then some (j + 1)
        else tryTldLen t afterT j
      | none => tryTldLen t afterT j
    else tryTldLen t afterT j

/-- Backtracking search for the `[A-Za-z0-9.-]+\.` part of `EMAIL_PATTERN`:
try the split index `i` (domain = first `i` characters, then a literal `.`)
descending, as the greedy `+` does; for each, search the TLD tail.  Returns
`(i, j)`: `i` domain characters, the dot, `j` TLD characters. -/
def tryDomSplit (r2 : List Char) : Nat → Option (Nat × Nat)
  | 0 => none
  | i + 1 =>
    (if r2[i + 1]? = some '.' then
       let tldArea := r2.drop (i + 2)
       let t := tldArea.takeWhile isTldCh
       let afterT := (tldArea.drop t.length).head?
       match tryTldLen t afterT t.length with
       | some j => some (i + 1, j)
       | none => none
     else none)
    <|> tryDomSplit r2 i

/-- `EMAIL_PATTERN = r'\b[A-Za-z0-9._%+-]+@[A-Za-z0-9.-]+\.[A-Z|a-z]{2,}\b'`
with IGNORECASE (a no-op for these classes).  The greedy local part cannot
backtrack (`@` is not in its class); the domain part backtracks over the
positions of literal dots; the TLD part backtracks against the final
`\b`. -/
def tryEmail (prev : Option Char) (rest : List Char) :
    Option (List Char × List Char) :=
  match rest with
  | [] => none
  | c :: _ =>
    if isEmailLocalCh c && atBoundary prev (some c) then
      let lcl := rest.takeWhile isEmailLocalCh
      match rest.drop lcl.length with
      | '@' :: r2 =>
        let n := (r2.takeWhile isEmailDomCh).length
        (match tryDomSplit r2 n with
         | some (i, j) =>
           some (lcl ++ '@' :: r2.take (i + 1 + j), r2.drop (i + 1 + j))
         | none => none)
      | _ => none
    else none

/-- `IFSC_PATTERN = r'\b[A-Z]{4}0[A-Z0-9]{6}\b'` (case-sensitive: no flag is
passed for this pattern).  Fixed width 11, no internal backtracking. -/
def tryIfsc (prev : Option Char) (rest : List Char) :
    Option (List Char × List Char) :=
  if !isWordOpt prev then
    match rest with
    | a :: b :: c :: d :: z :: e1 :: e2 :: e3 :: e4 :: e5 :: e6 :: after =>
      if [a, b, c, d].all isUpperCh && z = '0' &&
          [e1, e2, e3, e4, e5, e6].all (fun x => isUpperCh x || isDigitCh x) &&
          !isWordOpt after.head? then
        some ([a, b, c, d, z, e1, e2, e3, e4, e5, e6], after)
      else none
    | _ => none
  else none

/-! ### Extraction functions (`extractor.py`) -/

/-- First character in `'6789'` (the phone-exclusion test of
`extract_bank_accounts`). -/
def firstIs6789 (s : String) : Bool :=
  match s.data with
  | c :: _ => 54 ≤ c.toNat && c.toNat ≤ 57
  | [] => false

/-- `extract_bank_accounts`: find `\b\d{9,18}\b`, drop 10-digit matches
starting `6`–`9` (and, redundantly, matches shorter than 9), dedupe. -/
def extract_bank_accounts (text : String) : List String :=
  let ms := findAll tryBank text
  let filtered := ms.filter
    (fun m => !(m.length = 10 && firstIs6789 m) && !(m.length < 9))
  pyDedup filtered

/-- The domains excluded by `extract_upi_ids`. -/
def email_domains : List String :=
  ["gmail", "yahoo", "hotmail", "outlook", "proton", "mail"]

/-- `m.split('@')[1]` for a UPI match (which contains exactly one `@`):
everything after the `@`. -/
def upiDomain (m : String) : String :=
  ⟨(m.data.dropWhile (fun c => !(c = '@'))).drop 1⟩

/-- `extract_upi_ids`: find the UPI pattern, drop matches whose domain,
lower-cased, is a common e-mail provider, dedupe. -/
def extract_upi_ids (text : String) : List String :=
  let ms := findAll tryUpi text
  pyDedup (ms.filter (fun m => !(email_domains.contains (strLower (upiDomain m)))))

/-- The characters `re.sub(r'[\+\s\-]', '', match)` keeps. -/
def keepCh (c : Char) : Bool := !(c = '+' || isSpaceCh c || c = '-')

/-- The normalisation step of `extract_phone_numbers`:
`re.sub(r'[\+\s\-]', '', match)`, then strip a leading `91` when more than
10 digits remain. -/
def normalizePhone (m : String) : String :=
  let digits := m.data.filter keepCh
  let digits :=
    if (match digits with | '9' :: '1' :: _ => true | _ => false) &&
        10 < digits.length
    then digits.drop 2 else digits
  ⟨digits⟩

/-- `extract_phone_numbers`: find the phone pattern, normalise each match,
keep the 10-digit results, dedupe. -/
def extract_phone_numbers (text : String) : List String :=
  let ms := findAll (fun _ rest => tryPhone rest) text
  pyDedup ((ms.map normalizePhone).filter (fun d => d.length = 10))

/-- `extract_urls`: URLs plus short links, deduplicated together. -/
def extract_urls (text : String) : List String :=
  let urls := findAll (fun _ rest => tryUrl rest) text
  let short := findAll tryShort text
  pyDedup (urls ++ short)

/-- `extract_emails`. -/
def extract_emails (text : String) : List String :=
  pyDedup (findAll tryEmail text)

/-- `extract_ifsc_codes`. -/
def extract_ifsc_codes (text : String) : List String :=
  pyDedup (findAll tryIfsc text)

/-- The dictionary returned by `extract_intelligence`. -/
structure ExtractionResult where
  bank_accounts : List String
  upi_ids : List String
  phone_numbers : List String
  phishing_links : List String
  emails : List String
  ifsc_codes : List String
  has_intelligence : Bool
deriving DecidableEq, Repr

/-- The all-empty result returned for empty or non-string input. -/
def emptyExtraction : ExtractionResult :=
  { bank_accounts := [], upi_ids := [], phone_numbers := [],
    phishing_links := [], emails := [], ifsc_codes := [],
    has_intelligence := false }

/-- `extract_intelligence(text)`.  The argument models the Python value:
`some s` is a string, `none` any non-string (including `None`); the guard
`if not text or not isinstance(text, str)` therefore fires exactly on
`none` and `some ""`.  The embedding is a total function, which is the
formal counterpart of "must not raise". -/
def extract_intelligence : Option String → ExtractionResult
  | none => emptyExtraction
  | some t =>
    if t.isEmpty then emptyExtraction
    else
      let ba := extract_bank_accounts t
      let up := extract_upi_ids t
      let ph := extract_phone_numbers t
      let ur := extract_urls t
      let em := extract_emails t
      let ic := extract_ifsc_codes t
      { bank_accounts := ba, upi_ids := up, phone_numbers := ph,
        phishing_links := ur, emails := em, ifsc_codes := ic,
        has_intelligence :=
          !ba.isEmpty || !up.isEmpty || !ph.isEmpty || !ur.isEmpty ||
          !em.isEmpty || !ic.isEmpty }

/-! ### Conversation state (`honeypot.py`) -/

/-- `SUSPICIOUS_KEYWORDS` from `honeypot.py`. -/
def SUSPICIOUS_KEYWORDS : List String :=
  ["urgent", "verify now", "account blocked", "KYC", "OTP",
   "lottery", "winner", "prize", "blocked", "suspended",
   "immediately", "verify", "click here", "link", "expire"]

/-- `pat` matches at the head of `hay` (helper for Python's `in` on
strings). -/
def headMatches : List Char → List Char → Bool
  | [], _ => true
  | _ :: _, [] => false
  | p :: ps, c :: cs => p = c && headMatches ps cs

/-- Python's substring test `pat in hay`. -/
def containsSub (pat : List Char) : List Char → Bool
  | [] => headMatches pat []
  | c :: cs => headMatches pat (c :: cs) || containsSub pat cs

/-- The keywords the `_extract_and_merge` loop collects for `text`:
`keyword.lower() in text.lower()`, in `SUSPICIOUS_KEYWORDS` order. -/
def keywordHits (text : String) : List String :=
  SUSPICIOUS_KEYWORDS.filter
    (fun k => containsSub (strLower k).data (strLower text).data)

/-- One message of `ConversationState.messages` (the dict
`{"role": …, "content": …, "timestamp": …}`). -/
structure Msg where
  role : String
  content : String
  timestamp : Int
deriving DecidableEq, Repr

/-- One entry of a supplied `conversationHistory`
(`{"sender": …, "text": …, "timestamp": …}`). -/
structure HistMsg where
  sender : String
  text : String
  timestamp : Int
deriving DecidableEq, Repr

/-- The `extracted_intelligence` dictionary of a `ConversationState`
(fixed keys `bankAccounts`, `upiIds`, `phoneNumbers`, `phishingLinks`,
`suspiciousKeywords`; each value a Python list kept duplicate-free by the
merge loops). -/
structure Intel where
  bankAccounts : List String
  upiIds : List String
  phoneNumbers : List String
  phishingLinks : List String
  suspiciousKeywords : List String
deriving DecidableEq, Repr

def emptyIntel : Intel :=
  { bankAccounts := [], upiIds := [], phoneNumbers := [],
    phishingLinks := [], suspiciousKeywords := [] }

/-- `ConversationState`.  `persona`, `created_at` and `agent_notes` are
omitted: they are opaque presentation data (and a wall-clock read) that no
studied operation reads or branches on. -/
structure ConversationState where
  session_id : String
  messages : List Msg
  extracted_intelligence : Intel
  scam_detected : Bool
  scam_type : Option String
  turn_count : Nat
  callback_sent : Bool
deriving DecidableEq, Repr

/-- `ConversationState.__init__`. -/
def freshState (sid : String) : ConversationState :=
  { session_id := sid, messages := [], extracted_intelligence := emptyIntel,
    scam_detected := false, scam_type := none, turn_count := 0,
    callback_sent := false }

/-- `_extract_and_merge(text)` restricted to the intelligence dictionary:
run `extract_intelligence` and append each unseen finding of the four
merged kinds, then append each unseen matching suspicious keyword.
(`emails` and `ifsc_codes` of the extraction result are not read.) -/
def mergeIntel (it : Intel) (text : String) : Intel :=
  let intel := extract_intelligence (some text)
  { bankAccounts := mergeList it.bankAccounts intel.bank_accounts,
    upiIds := mergeList it.upiIds intel.upi_ids,
    phoneNumbers := mergeList it.phoneNumbers intel.phone_numbers,
    phishingLinks := mergeList it.phishingLinks intel.phishing_links,
    suspiciousKeywords := mergeList it.suspiciousKeywords (keywordHits text) }

/-- `ConversationState._extract_and_merge`. -/
def extractAndMerge (st : ConversationState) (text : String) :
    ConversationState :=
  { st with extracted_intelligence := mergeIntel st.extracted_intelligence text }

/-- `ConversationState.add_message(role, content, timestamp)`. -/
def addMessage (st : ConversationState) (role content : String) (ts : Int) :
    ConversationState :=
  let st' := { st with
    messages := st.messages ++ [{ role := role, content := content, timestamp := ts }],
    turn_count := st.turn_count + 1 }
  if role = "scammer" then extractAndMerge st' content else st'

/-- The body of the `for msg in conversation_history` loop of
`rebuild_from_history`. -/
def rebuildStep (s : ConversationState) (m : HistMsg) : ConversationState :=
  let s' := { s with
    messages := s.messages ++ [{ role := m.sender, content := m.text, timestamp := m.timestamp }] }
  if m.sender = "scammer" then extractAndMerge s' m.text else s'

/-- `ConversationState.rebuild_from_history(conversation_history)`:
reset `messages`, replay the supplied history (extracting from scammer
turns), set `turn_count` to the rebuilt length.  Note that
`extracted_intelligence` is *not* reset. -/
def rebuildFromHistory (st : ConversationState) (hist : List HistMsg) :
    ConversationState :=
  let s := hist.foldl rebuildStep { st with messages := [] }
  { s with turn_count := s.messages.length }

/-- `get_or_create_session`, at the level of one session's record: the
store lookup is modelled by the optional existing record. -/
def getOrCreateSession (st? : Option ConversationState) (sid : String)
    (hist : List HistMsg) : ConversationState :=
  let s := match st? with | some s => s | none => freshState sid
  if hist ≠ [] ∧ s.messages.length < hist.length then
    rebuildFromHistory s hist
  else s

/-- `ConversationState.has_valuable_intelligence`. -/
def hasValuableIntelligence (st : ConversationState) : Bool :=
  !st.extracted_intelligence.bankAccounts.isEmpty ||
  !st.extracted_intelligence.upiIds.isEmpty ||
  !st.extracted_intelligence.phishingLinks.isEmpty ||
  !st.extracted_intelligence.phoneNumbers.isEmpty

/-- `send_guvi_callback(session)`.  `ack` is the observable outcome of the
HTTP POST: `some code` a response with that status, `none` a raised
exception (network failure/timeout).  The returned `Bool` records whether
an HTTP request was issued at all; `callback_sent` is set only on a 200
response. -/
def sendGuviCallback (st : ConversationState) (ack : Option Nat) :
    Bool × ConversationState :=
  if st.callback_sent then (false, st)
  else
    match ack with
    | none => (true, st)          -- `except`: request made, callback failed
    | some code =>
      if code = 200 then (true, { st with callback_sent := true })
      else (true, st)             -- non-200 status: request made, not marked

/-- The report trigger at the end of `process_scam_message`:
`if session.scam_detected and session.has_valuable_intelligence():
send_guvi_callback(session)`. -/
def reportStep (st : ConversationState) (ack : Option Nat) :
    Bool × ConversationState :=
  if st.scam_detected && hasValuableIntelligence st then
    sendGuviCallback st ack
  else (false, st)

/-- The externally observable outcomes consumed during one
`process_scam_message` call: the message and history of the request, the
classifier verdict Gemini would return if consulted, the generated reply
text, the message timestamps, and the callback acknowledgment if a report
is attempted. -/
structure TurnInput where
  message : String
  history : List HistMsg
  classifyIsScam : Bool
  classifyReason : String
  reply : String
  ts1 : Int
  ts2 : Int
  ack : Option Nat
deriving Repr

/-- What one `process_scam_message` call did. -/
structure TurnOutput where
  state : ConversationState
  classifierInvoked : Bool
  reportEmitted : Bool
  reply : String
deriving Repr

/-- `process_scam_message`, at the level of one session's record:
get-or-create (with possible history rebuild), append the scammer turn,
classify unless `scam_detected` already holds, append the agent reply,
then evaluate the report trigger. -/
def processTurn (st? : Option ConversationState) (sid : String)
    (inp : TurnInput) : TurnOutput :=
  let s0 := getOrCreateSession st? sid inp.history
  let s1 := addMessage s0 "scammer" inp.message inp.ts1
  let invoked := !s1.scam_detected
  let s2 :=
    if !s1.scam_detected then
      { s1 with scam_detected := inp.classifyIsScam,
                scam_type := some inp.classifyReason }
    else s1
  let s3 := addMessage s2 "user" inp.reply inp.ts2
  let er := reportStep s3 inp.ack
  { state := er.2, classifierInvoked := invoked, reportEmitted := er.1,
    reply := inp.reply }

/-- A whole conversation: fold `process_scam_message` over a list of turn
inputs, starting from an existing record. -/
def runTurnsFrom (st : ConversationState) (sid : String)
    (inps : List TurnInput) : ConversationState :=
  inps.foldl (fun s i => (processTurn (some s) sid i).state) st

/-! ### Primitive mutation events

`add_message` and `rebuild_from_history` are the only operations that touch
a record's turn log and intelligence; a `process_scam_message` call is a
composition of them (plus flag updates).  Sequences of these events are the
induction skeleton for the union/monotonicity invariants. -/

inductive Event where
  | msg (role : String) (content : String) (ts : Int)
  | rebuild (hist : List HistMsg)
deriving Repr

def applyEvent (st : ConversationState) : Event → ConversationState
  | .msg r c t => addMessage st r c t
  | .rebuild h => rebuildFromHistory st h

def runEvents (st : ConversationState) (evs : List Event) : ConversationState :=
  evs.foldl applyEvent st

/-- The texts of the Counterparty (`"scammer"`) turns of a supplied
history, in order. -/
def histScamTexts (hist : List HistMsg) : List String :=
  (hist.filter (fun m => m.sender = "scammer")).map (fun m => m.text)

/-- All Counterparty texts an event sequence runs extraction over, in
processing order (a rebuild re-processes every scammer turn of the supplied
history). -/
def scammerTexts : List Event → List String
  | [] => []
  | .msg r c _ :: evs =>
    (if r = "scammer" then [c] else []) ++ scammerTexts evs
  | .rebuild h :: evs => histScamTexts h ++ scammerTexts evs

/-- Every string stored anywhere in an intelligence dictionary. -/
def allIntelValues (it : Intel) : List String :=
  it.bankAccounts ++ it.upiIds ++ it.phoneNumbers ++ it.phishingLinks ++
    it.suspiciousKeywords

/-- The `scam_detected` flag of the looked-up (or fresh) record before a
turn is processed. -/
def baseScam : Option ConversationState → Bool
  | some s => s.scam_detected
  | none => false

/-! ### Concrete scenario data used by the counterexamples and witnesses -/

/-- Turn 1 of the spec's end-to-end scenario. -/
def e2eTurn1 : String := "Send money to account 1234567890123 IFSC SBIN0001234"

/-- A fresh record after processing the end-to-end scenario's first
Counterparty turn. -/
def demoStateC1 : ConversationState :=
  addMessage (freshState "s-1") "scammer" e2eTurn1 0

/-- A record holding one Counterparty turn whose text is a phone number. -/
def demoStateC2 : ConversationState :=
  addMessage (freshState "s-2") "scammer" "9876543210" 0

/-- A supplied history of two turns containing no intelligence at all. -/
def demoHistC2 : List HistMsg :=
  [{ sender := "scammer", text := "hello", timestamp := 0 },
   { sender := "user", text := "hi", timestamp := 1 }]

/-- A record in the spec's report-gate scenario: scam detected, one UPI id,
callback not yet sent. -/
def demoReportState : ConversationState :=
  { freshState "s-3" with
    scam_detected := true,
    extracted_intelligence := { emptyIntel with upiIds := ["merchant@ybl"] } }

/-- A turn whose classification outcome is "not a scam". -/
def demoTurnA : TurnInput :=
  { message := "hello", history := [], classifyIsScam := false,
    classifyReason := "benign", reply := "ok", ts1 := 0, ts2 := 1,
    ack := none }

/-- A text on which the URL and Email recognizers emit the same literal. -/
def demoC9text : String := "www.x@y.zz"

/-- A stale (length-1) supplied history. -/
def demoStaleHist : List HistMsg :=
  [{ sender := "scammer", text := "9876543210", timestamp := 0 }]

/-- The Counterparty texts one `process_scam_message` call runs extraction
over: the supplied history's scammer turns when the rebuild condition
fires, then the incoming message. -/
def turnScamTexts (st : ConversationState) (inp : TurnInput) : List String :=
  (if inp.history ≠ [] ∧ st.messages.length < inp.history.length then
     histScamTexts inp.history
   else []) ++ [inp.message]


/-! ### Basic lemmas about the merge idiom -/

theorem mem_mergeVal {l : List String} {x y : String} :
    y ∈ mergeVal l x ↔ y ∈ l ∨ y = x := by
  unfold mergeVal
  split
  · next hx =>
    constructor
    · exact Or.inl
    · rintro (h | rfl)
      · exact h
      · exact hx
  · simp

theorem mem_mergeList {l xs : List String} {y : String} :
    y ∈ mergeList l xs ↔ y ∈ l ∨ y ∈ xs := by
  induction xs generalizing l with
  | nil => simp [mergeList]
  | cons x xs ih =>
    show y ∈ mergeList (mergeVal l x) xs ↔ _
    rw [ih, mem_mergeVal]
    simp [or_assoc]

theorem nodup_mergeVal {l : List String} {x : String} (h : l.Nodup) :
    (mergeVal l x).Nodup := by
  unfold mergeVal
  split
  · exact h
  · next hx => simp [List.nodup_append, h, hx]

theorem nodup_mergeList {l : List String} (xs : List String) (h : l.Nodup) :
    (mergeList l xs).Nodup := by
  induction xs generalizing l with
  | nil => exact h
  | cons x xs ih => exact ih (nodup_mergeVal h)

theorem mem_pyDedup {xs : List String} {y : String} :
    y ∈ pyDedup xs ↔ y ∈ xs := by
  unfold pyDedup
  rw [mem_mergeList]
  simp

theorem nodup_pyDedup (xs : List String) : (pyDedup xs).Nodup :=
  nodup_mergeList xs List.nodup_nil

/-! ### Soundness of the scan driver: every reported match comes from the
matcher -/

theorem scanAux_sound
    (f : Option Char → List Char → Option (List Char × List Char)) :
    ∀ (fuel : Nat) (prev : Option Char) (cs : List Char) (m : List Char),
      m ∈ scanAux f fuel prev cs →
      ∃ prev' cs' r, f prev' cs' = some (m, r) := by
  intro fuel
  induction fuel with
  | zero => intro prev cs m h; simp [scanAux] at h
  | succ fuel ih =>
    intro prev cs m h
    match cs with
    | [] => simp [scanAux] at h
    | c :: cs' =>
      rw [scanAux] at h
      revert h
      split
      · next m0 rest heq =>
        split
        · intro h; exact ih _ _ _ h
        · intro h
          rcases List.mem_cons.mp h with rfl | h
          · exact ⟨prev, c :: cs', rest, heq⟩
          · exact ih _ _ _ h
      · intro h; exact ih _ _ _ h

theorem findAll_sound
    (f : Option Char → List Char → Option (List Char × List Char))
    (text : String) (x : String) (hx : x ∈ findAll f text) :
    ∃ m prev' cs' r, x = (⟨m⟩ : String) ∧ f prev' cs' = some (m, r) := by
  unfold findAll at hx
  rcases List.mem_map.mp hx with ⟨m, hm, rfl⟩
  rcases scanAux_sound f _ _ _ _ hm with ⟨prev', cs', r, hf⟩
  exact ⟨m, prev', cs', r, rfl, hf⟩

/-! ### Shape of phone matches and their normalisation -/

theorem digit_keepCh {c : Char} (h : isDigitCh c = true) : keepCh c = true := by
  simp only [isDigitCh, Bool.and_eq_true, decide_eq_true_eq] at h
  have h1 : c ≠ '+' := by intro hc; subst hc; exact absurd h (by decide)
  have h2 : c ≠ '-' := by intro hc; subst hc; exact absurd h (by decide)
  have h3 : isSpaceCh c = false := by
    simp only [isSpaceCh, Bool.or_eq_false_iff, decide_eq_false_iff_not,
      Bool.and_eq_false_iff]
    omega
  simp [keepCh, h1, h2, h3]

theorem sep_keepCh {s : Char} (h : isSepCh s = true) : keepCh s = false := by
  simp only [isSepCh, Bool.or_eq_true, decide_eq_true_eq] at h
  rcases h with h | h
  · simp [keepCh, h]
  · simp [keepCh, h]

theorem tryPhoneCore_shape {cs m r : List Char}
    (h : tryPhoneCore cs = some (m, r)) :
    m.length = 10 ∧ m.all isDigitCh = true ∧
      ∃ c ds, m = c :: ds ∧ 54 ≤ c.toNat ∧ c.toNat ≤ 57 := by
  unfold tryPhoneCore at h
  split at h
  · exact absurd h (by simp)
  · next c rest =>
    split at h
    · next hc =>
      dsimp only at h
      split at h
      · next hds =>
        simp only [Option.some.injEq, Prod.mk.injEq] at h
        obtain ⟨rfl, rfl⟩ : m = c :: rest.take 9 ∧ r = rest.drop 9 :=
          ⟨h.1.symm, h.2.symm⟩
        simp only [Bool.and_eq_true, decide_eq_true_eq] at hds hc
        have hlen : (rest.take 9).length = 9 := hds.1.1
        refine ⟨by simp [hlen], ?_, c, rest.take 9, rfl, hc.1, hc.2⟩
        have hcdig : isDigitCh c = true := by
          simp only [isDigitCh, Bool.and_eq_true, decide_eq_true_eq]
          omega
        simp [List.all_cons, hcdig, hds.1.2]
      · exact absurd h (by simp)
    · exact absurd h (by simp)

theorem normalizePhone_eq (pre core : List Char)
    (hpre : pre.filter keepCh = [] ∨ pre.filter keepCh = ['9', '1'])
    (hlen : core.length = 10) (hdig : core.all isDigitCh = true) :
    normalizePhone ⟨pre ++ core⟩ = ⟨core⟩ := by
  have hcore : core.filter keepCh = core := by
    rw [List.filter_eq_self]
    intro a ha
    exact digit_keepCh (by
      have := List.all_eq_true.mp hdig a ha
      simpa using this)
  unfold normalizePhone
  simp only [List.filter_append, hcore]
  rcases hpre with hp | hp
  · rw [hp]
    simp only [List.nil_append]
    have : ¬ (10 < core.length) := by omega
    simp [this]
  · rw [hp]
    have hlen2 : (('9' : Char) :: '1' :: core).length = 12 := by simp [hlen]
    simp [hlen2, hlen]

theorem orElse_some {α : Type} {a b : Option α} {x : α}
    (h : (a <|> b) = some x) : a = some x ∨ b = some x := by
  cases a <;> simp_all

theorem addPre_some {pre : List Char} {r : Option (List Char × List Char)}
    {m rest : List Char} (h : addPre pre r = some (m, rest)) :
    ∃ core, r = some (core, rest) ∧ m = pre ++ core := by
  unfold addPre at h
  rcases Option.map_eq_some'.mp h with ⟨⟨core, rest'⟩, hr, heq⟩
  simp only [Prod.mk.injEq] at heq
  exact ⟨core, by rw [hr, heq.2], heq.1.symm⟩

/-- Every `tryPhone` match normalises to its 10-digit core. -/
theorem tryPhone_norm {rest m r : List Char}
    (h : tryPhone rest = some (m, r)) :
    ∃ core, normalizePhone ⟨m⟩ = (⟨core⟩ : String) ∧ core.length = 10 ∧
      core.all isDigitCh = true ∧
      ∃ c ds, core = c :: ds ∧ 54 ≤ c.toNat ∧ c.toNat ≤ 57 := by
  have finish : ∀ (pre core' r' : List Char),
      pre.filter keepCh = [] ∨ pre.filter keepCh = ['9', '1'] →
      tryPhoneCore core' = some (r', r) → m = pre ++ r' →
      ∃ core, normalizePhone ⟨m⟩ = (⟨core⟩ : String) ∧ core.length = 10 ∧
        core.all isDigitCh = true ∧
        ∃ c ds, core = c :: ds ∧ 54 ≤ c.toNat ∧ c.toNat ≤ 57 := by
    intro pre core' r' hpre hcore hm
    rcases tryPhoneCore_shape hcore with ⟨hlen, hdig, hshape⟩
    subst hm
    exact ⟨r', normalizePhone_eq pre r' hpre hlen hdig, hlen, hdig, hshape⟩
  unfold tryPhone at h
  revert h
  split
  · -- rest = '+' :: '9' :: '1' :: cs
    next cs =>
    split
    · next s cs' =>
      split
      · next hs =>
        intro h
        rcases orElse_some h with h1 | h1
        · rcases addPre_some h1 with ⟨core, hc, hm⟩
          exact finish _ _ _ (Or.inr (by simp [List.filter, sep_keepCh hs]; decide)) hc hm
        · rcases addPre_some h1 with ⟨core, hc, hm⟩
          exact finish _ _ _ (Or.inr (by decide)) hc hm
      · intro h
        rcases addPre_some h with ⟨core, hc, hm⟩
        exact finish _ _ _ (Or.inr (by decide)) hc hm
    · intro h; exact absurd h (by simp)
  · -- rest = '9' :: '1' :: cs
    next cs =>
    split
    · next s cs' =>
      split
      · next hs =>
        intro h
        rcases orElse_some h with h1 | h1
        · rcases addPre_some h1 with ⟨core, hc, hm⟩
          exact finish _ _ _ (Or.inr (by simp [List.filter, sep_keepCh hs]; decide)) hc hm
        · rcases orElse_some h1 with h2 | h2
          · rcases addPre_some h2 with ⟨core, hc, hm⟩
            exact finish _ _ _ (Or.inr (by decide)) hc hm
          · exact finish [] _ _ (Or.inl rfl) h2 rfl
      · intro h
        rcases orElse_some h with h1 | h1
        · rcases addPre_some h1 with ⟨core, hc, hm⟩
          exact finish _ _ _ (Or.inr (by decide)) hc hm
        · exact finish [] _ _ (Or.inl rfl) h1 rfl
    · intro h
      exact finish [] _ _ (Or.inl rfl) h rfl
  · -- catch-all: the bare core
    intro h
    exact finish [] _ _ (Or.inl rfl) h rfl

/-- Every value produced by `extract_phone_numbers` is a 10-character
all-digit string starting `6`–`9`. -/
theorem phone_shape_of_mem {text x : String}
    (h : x ∈ extract_phone_numbers text) :
    x.length = 10 ∧ x.data.all isDigitCh = true ∧ firstIs6789 x = true := by
  unfold extract_phone_numbers at h
  rw [mem_pyDedup] at h
  rcases List.mem_filter.mp h with ⟨hmap, _⟩
  rcases List.mem_map.mp hmap with ⟨mStr, hms, rfl⟩
  rcases findAll_sound _ text mStr hms with ⟨m, prev', cs', r, rfl, hf⟩
  rcases tryPhone_norm hf with ⟨core, hnorm, hlen, hdig, c, ds, rfl, hc1, hc2⟩
  rw [hnorm]
  refine ⟨?_, hdig, ?_⟩
  · simpa [String.length] using hlen
  · simp only [firstIs6789]
    simp only [Bool.and_eq_true, decide_eq_true_eq]
    exact ⟨hc1, hc2⟩

/-- `extract_phone_numbers` returns a duplicate-free list. -/
theorem phone_nodup (text : String) : (extract_phone_numbers text).Nodup := by
  unfold extract_phone_numbers
  exact nodup_pyDedup _

/-- The phone-exclusion filter of `extract_bank_accounts`: no returned
value is a 10-character string starting `6`–`9`. -/
theorem bank_excl_of_mem {text x : String}
    (h : x ∈ extract_bank_accounts text) (hlen : x.length = 10) :
    firstIs6789 x = false := by
  unfold extract_bank_accounts at h
  rw [mem_pyDedup] at h
  rcases List.mem_filter.mp h with ⟨_, hp⟩
  simp only [Bool.and_eq_true, Bool.not_eq_true', Bool.and_eq_false_iff,
    decide_eq_false_iff_not] at hp
  rcases hp.1 with h1 | h1
  · exact absurd hlen (by simpa using h1)
  · exact h1

/-! ### How the operations act on the intelligence dictionary -/

theorem intel_extractAndMerge (st : ConversationState) (t : String) :
    (extractAndMerge st t).extracted_intelligence =
      mergeIntel st.extracted_intelligence t := rfl

theorem intel_addMessage (st : ConversationState) (r c : String) (ts : Int) :
    (addMessage st r c ts).extracted_intelligence =
      if r = "scammer" then mergeIntel st.extracted_intelligence c
      else st.extracted_intelligence := by
  unfold addMessage
  split <;> rfl

theorem scam_addMessage (st : ConversationState) (r c : String) (ts : Int) :
    (addMessage st r c ts).scam_detected = st.scam_detected := by
  unfold addMessage
  split <;> rfl

theorem messages_addMessage (st : ConversationState) (r c : String) (ts : Int) :
    (addMessage st r c ts).messages =
      st.messages ++ [{ role := r, content := c, timestamp := ts }] := by
  unfold addMessage
  split <;> rfl

theorem turnCount_addMessage (st : ConversationState) (r c : String) (ts : Int) :
    (addMessage st r c ts).turn_count = st.turn_count + 1 := by
  unfold addMessage
  split <;> rfl

theorem callback_addMessage (st : ConversationState) (r c : String) (ts : Int) :
    (addMessage st r c ts).callback_sent = st.callback_sent := by
  unfold addMessage
  split <;> rfl

theorem intel_foldl_rebuildStep (hist : List HistMsg) :
    ∀ s : ConversationState,
      (hist.foldl rebuildStep s).extracted_intelligence =
        (histScamTexts hist).foldl mergeIntel s.extracted_intelligence := by
  induction hist with
  | nil => intro s; rfl
  | cons m hist ih =>
    intro s
    rw [List.foldl_cons, ih]
    by_cases hm : m.sender = "scammer"
    · have h1 : (rebuildStep s m).extracted_intelligence =
          mergeIntel s.extracted_intelligence m.text := by
        unfold rebuildStep
        rw [if_pos hm]
        rfl
      rw [h1]
      simp [histScamTexts, List.filter_cons, hm]
    · have h1 : (rebuildStep s m).extracted_intelligence =
          s.extracted_intelligence := by
        unfold rebuildStep
        rw [if_neg hm]
      rw [h1]
      simp [histScamTexts, List.filter_cons, hm]

theorem intel_rebuild (st : ConversationState) (hist : List HistMsg) :
    (rebuildFromHistory st hist).extracted_intelligence =
      (histScamTexts hist).foldl mergeIntel st.extracted_intelligence := by
  unfold rebuildFromHistory
  exact intel_foldl_rebuildStep hist _

theorem scam_foldl_rebuildStep (hist : List HistMsg) :
    ∀ s : ConversationState,
      (hist.foldl rebuildStep s).scam_detected = s.scam_detected := by
  induction hist with
  | nil => intro s; rfl
  | cons m hist ih =>
    intro s
    rw [List.foldl_cons, ih]
    unfold rebuildStep
    split <;> rfl

theorem scam_rebuild (st : ConversationState) (hist : List HistMsg) :
    (rebuildFromHistory st hist).scam_detected = st.scam_detected := by
  unfold rebuildFromHistory
  exact scam_foldl_rebuildStep hist _

theorem callback_foldl_rebuildStep (hist : List HistMsg) :
    ∀ s : ConversationState,
      (hist.foldl rebuildStep s).callback_sent = s.callback_sent := by
  induction hist with
  | nil => intro s; rfl
  | cons m hist ih =>
    intro s
    rw [List.foldl_cons, ih]
    unfold rebuildStep
    split <;> rfl

theorem messages_foldl_rebuildStep (hist : List HistMsg) :
    ∀ s : ConversationState,
      (hist.foldl rebuildStep s).messages =
        s.messages ++ hist.map
          (fun m => { role := m.sender, content := m.text, timestamp := m.timestamp }) := by
  induction hist with
  | nil => intro s; simp
  | cons m hist ih =>
    intro s
    rw [List.foldl_cons, ih]
    have : (rebuildStep s m).messages =
        s.messages ++ [{ role := m.sender, content := m.text, timestamp := m.timestamp }] := by
      unfold rebuildStep
      split <;> rfl
    rw [this]
    simp

theorem messages_rebuild (st : ConversationState) (hist : List HistMsg) :
    (rebuildFromHistory st hist).messages =
      hist.map
        (fun m => { role := m.sender, content := m.text, timestamp := m.timestamp }) := by
  unfold rebuildFromHistory
  dsimp only
  rw [messages_foldl_rebuildStep]
  simp

theorem turnCount_rebuild (st : ConversationState) (hist : List HistMsg) :
    (rebuildFromHistory st hist).turn_count = hist.length := by
  unfold rebuildFromHistory
  dsimp only
  rw [messages_foldl_rebuildStep]
  simp

/-! ### Folding `mergeIntel` over a list of Counterparty texts -/

theorem mem_foldl_proj (proj : Intel → List String) (ex : String → List String)
    (hm : ∀ it t, proj (mergeIntel it t) = mergeList (proj it) (ex t)) :
    ∀ (ts : List String) (it : Intel) (y : String),
      y ∈ proj (ts.foldl mergeIntel it) ↔
        y ∈ proj it ∨ ∃ t, t ∈ ts ∧ y ∈ ex t := by
  intro ts
  induction ts with
  | nil => intro it y; simp
  | cons t ts ih =>
    intro it y
    rw [List.foldl_cons, ih, hm, mem_mergeList]
    simp only [List.mem_cons]
    constructor
    · rintro ((h | h) | ⟨t', ht', hy⟩)
      · exact Or.inl h
      · exact Or.inr ⟨t, Or.inl rfl, h⟩
      · exact Or.inr ⟨t', Or.inr ht', hy⟩
    · rintro (h | ⟨t', (rfl | ht'), hy⟩)
      · exact Or.inl (Or.inl h)
      · exact Or.inl (Or.inr hy)
      · exact Or.inr ⟨t', ht', hy⟩

theorem nodup_foldl_proj (proj : Intel → List String) (ex : String → List String)
    (hm : ∀ it t, proj (mergeIntel it t) = mergeList (proj it) (ex t)) :
    ∀ (ts : List String) (it : Intel), (proj it).Nodup →
      (proj (ts.foldl mergeIntel it)).Nodup := by
  intro ts
  induction ts with
  | nil => intro it h; exact h
  | cons t ts ih =>
    intro it h
    rw [List.foldl_cons]
    exact ih _ (by rw [hm]; exact nodup_mergeList _ h)

theorem mergeIntel_bank (it : Intel) (t : String) :
    (mergeIntel it t).bankAccounts =
      mergeList it.bankAccounts (extract_intelligence (some t)).bank_accounts := rfl

theorem mergeIntel_upi (it : Intel) (t : String) :
    (mergeIntel it t).upiIds =
      mergeList it.upiIds (extract_intelligence (some t)).upi_ids := rfl

theorem mergeIntel_phone (it : Intel) (t : String) :
    (mergeIntel it t).phoneNumbers =
      mergeList it.phoneNumbers (extract_intelligence (some t)).phone_numbers := rfl

theorem mergeIntel_links (it : Intel) (t : String) :
    (mergeIntel it t).phishingLinks =
      mergeList it.phishingLinks (extract_intelligence (some t)).phishing_links := rfl

theorem mergeIntel_kw (it : Intel) (t : String) :
    (mergeIntel it t).suspiciousKeywords =
      mergeList it.suspiciousKeywords (keywordHits t) := rfl

/-! ### Intelligence of a whole event sequence -/

theorem intel_applyEvent (st : ConversationState) (e : Event) :
    (applyEvent st e).extracted_intelligence =
      (scammerTexts [e]).foldl mergeIntel st.extracted_intelligence := by
  cases e with
  | msg r c ts =>
    rw [applyEvent, intel_addMessage]
    by_cases hr : r = "scammer"
    · simp [scammerTexts, hr]
    · simp [scammerTexts, hr]
  | rebuild h =>
    rw [applyEvent, intel_rebuild]
    simp [scammerTexts]

theorem scammerTexts_append (evs evs' : List Event) :
    scammerTexts (evs ++ evs') = scammerTexts evs ++ scammerTexts evs' := by
  induction evs with
  | nil => simp [scammerTexts]
  | cons e evs ih =>
    cases e <;> simp [scammerTexts, ih]

theorem intel_runEvents (evs : List Event) :
    ∀ st : ConversationState,
      (runEvents st evs).extracted_intelligence =
        (scammerTexts evs).foldl mergeIntel st.extracted_intelligence := by
  induction evs with
  | nil => intro st; rfl
  | cons e evs ih =>
    intro st
    show (runEvents (applyEvent st e) evs).extracted_intelligence = _
    rw [ih, intel_applyEvent]
    have : scammerTexts (e :: evs) = scammerTexts [e] ++ scammerTexts evs := by
      have := scammerTexts_append [e] evs
      simpa using this
    rw [this, List.foldl_append]

/-! ### Intelligence of a whole `process_scam_message` call -/

theorem intel_report (st : ConversationState) (ack : Option Nat) :
    (reportStep st ack).2.extracted_intelligence = st.extracted_intelligence := by
  unfold reportStep sendGuviCallback
  split
  · split
    · rfl
    · split
      · rfl
      · split <;> rfl
  · rfl

theorem scam_report (st : ConversationState) (ack : Option Nat) :
    (reportStep st ack).2.scam_detected = st.scam_detected := by
  unfold reportStep sendGuviCallback
  split
  · split
    · rfl
    · split
      · rfl
      · split <;> rfl
  · rfl

theorem messages_report (st : ConversationState) (ack : Option Nat) :
    (reportStep st ack).2.messages = st.messages := by
  unfold reportStep sendGuviCallback
  split
  · split
    · rfl
    · split
      · rfl
      · split <;> rfl
  · rfl

theorem turnCount_report (st : ConversationState) (ack : Option Nat) :
    (reportStep st ack).2.turn_count = st.turn_count := by
  unfold reportStep sendGuviCallback
  split
  · split
    · rfl
    · split
      · rfl
      · split <;> rfl
  · rfl

theorem intel_processTurn (st : ConversationState) (sid : String)
    (inp : TurnInput) :
    (processTurn (some st) sid inp).state.extracted_intelligence =
      (turnScamTexts st inp).foldl mergeIntel st.extracted_intelligence := by
  unfold processTurn
  dsimp only
  rw [intel_report, intel_addMessage]
  rw [if_neg (by decide : ¬ ("user" : String) = "scammer")]
  have hintel2 :
      ∀ s1 : ConversationState,
        (if !s1.scam_detected then
          { s1 with scam_detected := inp.classifyIsScam,
                    scam_type := some inp.classifyReason }
         else s1).extracted_intelligence = s1.extracted_intelligence := by
    intro s1; split <;> rfl
  rw [hintel2, intel_addMessage, if_pos rfl]
  unfold getOrCreateSession turnScamTexts
  dsimp only
  split
  · rw [intel_rebuild, List.foldl_append]
    rfl
  · simp

/-! ### The scam flag through one turn -/

theorem scam_getOrCreate (st? : Option ConversationState) (sid : String)
    (hist : List HistMsg) :
    (getOrCreateSession st? sid hist).scam_detected = baseScam st? := by
  unfold getOrCreateSession
  cases st? with
  | none =>
    dsimp only
    split
    · rw [scam_rebuild]; rfl
    · rfl
  | some s =>
    dsimp only
    split
    · rw [scam_rebuild]; rfl
    · rfl

theorem invoked_processTurn (st? : Option ConversationState) (sid : String)
    (inp : TurnInput) :
    (processTurn st? sid inp).classifierInvoked = !(baseScam st?) := by
  unfold processTurn
  dsimp only
  rw [scam_addMessage, scam_getOrCreate]

theorem scam_processTurn (st? : Option ConversationState) (sid : String)
    (inp : TurnInput) :
    (processTurn st? sid inp).state.scam_detected =
      (baseScam st? || inp.classifyIsScam) := by
  unfold processTurn
  dsimp only
  rw [scam_report, scam_addMessage]
  have hb : ∀ s1 : ConversationState,
      (if !s1.scam_detected then
        { s1 with scam_detected := inp.classifyIsScam,
                  scam_type := some inp.classifyReason }
       else s1).scam_detected = (s1.scam_detected || inp.classifyIsScam) := by
    intro s1
    cases h1 : s1.scam_detected <;> simp [h1]
  rw [hb, scam_addMessage, scam_getOrCreate]

/-! ### Per-kind monotonicity of one turn and of turn sequences -/

theorem mono_processTurn (st : ConversationState) (sid : String)
    (inp : TurnInput) (y : String) :
    (y ∈ st.extracted_intelligence.bankAccounts →
      y ∈ (processTurn (some st) sid inp).state.extracted_intelligence.bankAccounts) ∧
    (y ∈ st.extracted_intelligence.upiIds →
      y ∈ (processTurn (some st) sid inp).state.extracted_intelligence.upiIds) ∧
    (y ∈ st.extracted_intelligence.phoneNumbers →
      y ∈ (processTurn (some st) sid inp).state.extracted_intelligence.phoneNumbers) ∧
    (y ∈ st.extracted_intelligence.phishingLinks →
      y ∈ (processTurn (some st) sid inp).state.extracted_intelligence.phishingLinks) ∧
    (y ∈ st.extracted_intelligence.suspiciousKeywords →
      y ∈ (processTurn (some st) sid inp).state.extracted_intelligence.suspiciousKeywords) := by
  rw [intel_processTurn]
  refine ⟨?_, ?_, ?_, ?_, ?_⟩ <;> intro hy
  · exact (mem_foldl_proj _ _ mergeIntel_bank _ _ _).mpr (Or.inl hy)
  · exact (mem_foldl_proj _ _ mergeIntel_upi _ _ _).mpr (Or.inl hy)
  · exact (mem_foldl_proj _ _ mergeIntel_phone _ _ _).mpr (Or.inl hy)
  · exact (mem_foldl_proj _ _ mergeIntel_links _ _ _).mpr (Or.inl hy)
  · exact (mem_foldl_proj _ _ mergeIntel_kw _ _ _).mpr (Or.inl hy)

/-! ### Characterisation of the report gate -/

theorem sendGuvi_spec (st : ConversationState) (ack : Option Nat) :
    (sendGuviCallback st ack).1 = !st.callback_sent ∧
    (sendGuviCallback st ack).2.callback_sent =
      (st.callback_sent || (!st.callback_sent && decide (ack = some 200))) := by
  unfold sendGuviCallback
  split
  · next hc => simp [hc]
  · next hc =>
    have hcf : st.callback_sent = false := by
      revert hc; cases st.callback_sent <;> simp
    rcases ack with _ | code
    · simp [hcf]
    · dsimp only
      by_cases h200 : code = 200
      · subst h200; simp [hcf]
      · rw [if_neg h200]; simp [hcf, h200]

theorem report_emitted_eq (st : ConversationState) (ack : Option Nat) :
    (reportStep st ack).1 =
      (st.scam_detected && hasValuableIntelligence st && !st.callback_sent) := by
  unfold reportStep
  split
  · next hg => rw [(sendGuvi_spec st ack).1]; simp [hg]
  · next hg =>
    have hgf : (st.scam_detected && hasValuableIntelligence st) = false := by
      revert hg; cases (st.scam_detected && hasValuableIntelligence st) <;> simp
    simp [hgf]

theorem report_callback_eq (st : ConversationState) (ack : Option Nat) :
    (reportStep st ack).2.callback_sent =
      (st.callback_sent ||
        (st.scam_detected && hasValuableIntelligence st &&
          decide (ack = some 200))) := by
  unfold reportStep
  split
  · next hg =>
    rw [(sendGuvi_spec st ack).2, hg]
    cases st.callback_sent <;> simp
  · next hg =>
    have hgf : (st.scam_detected && hasValuableIntelligence st) = false := by
      revert hg; cases (st.scam_detected && hasValuableIntelligence st) <;> simp
    simp [hgf]

/-! ### The claims -/

/-- Claim C3: a report (HTTP POST to the reporting collaborator) is emitted
iff `scamDetected` holds, at least one of the BankAccount/UpiId/Url/
PhoneNumber sets is non-empty, and `reportSent` (`callback_sent`) is still
false; `reportSent` is set only on a successful acknowledgment (the code
accepts exactly status 200, which is a 2xx), remains false on any failure
(non-200 status or a raised exception), and once true a second evaluation
with unchanged state emits no further report. -/
theorem C3_report_gate (st : ConversationState) (ack ack' : Option Nat) :
    ((reportStep st ack).1 =
      (st.scam_detected && hasValuableIntelligence st && !st.callback_sent)) ∧
    ((reportStep st ack).2.callback_sent =
      (st.callback_sent ||
        (st.scam_detected && hasValuableIntelligence st &&
          decide (ack = some 200)))) ∧
    ((reportStep st ack).2.extracted_intelligence = st.extracted_intelligence) ∧
    ((reportStep st ack).2.scam_detected = st.scam_detected) ∧
    ((reportStep st ack).2.callback_sent = true →
      (reportStep (reportStep st ack).2 ack').1 = false) := by
  refine ⟨report_emitted_eq st ack, report_callback_eq st ack,
    intel_report st ack, scam_report st ack, ?_⟩
  intro h
  rw [report_emitted_eq, h]
  simp

/-- Witness for C3, on the spec's report-gate scenario: scam detected, one
UpiId, callback not sent; a 200 acknowledgment emits the report, latches
`reportSent`, and a second evaluation emits nothing. -/
theorem C3_report_gate_witness :
    (reportStep demoReportState (some 200)).1 = true ∧
    (reportStep demoReportState (some 200)).2.callback_sent = true ∧
    (reportStep (reportStep demoReportState (some 200)).2 (some 200)).1 = false := by
  have h := C3_report_gate demoReportState (some 200) (some 200)
  refine ⟨?_, ?_, ?_⟩
  · rw [h.1]; decide
  · rw [h.2.1]; decide
  · exact h.2.2.2.2 (by rw [h.2.1]; decide)

/-- Claim C5: a supplied history whose length is at most the record's turn
count (equivalently, its message count — the two agree for every reachable
record) is ignored: processing a turn with that stale history produces the
same `turn_count` and the same intelligence dictionary as processing it
with no supplied history. -/
theorem C5_stale_history_ignored (st : ConversationState) (sid : String)
    (inp : TurnInput) (hist : List HistMsg)
    (hwf : st.turn_count = st.messages.length)
    (hle : hist.length ≤ st.turn_count) :
    ((processTurn (some st) sid { inp with history := hist }).state.turn_count =
      (processTurn (some st) sid { inp with history := [] }).state.turn_count) ∧
    ((processTurn (some st) sid { inp with history := hist }).state.extracted_intelligence =
      (processTurn (some st) sid { inp with history := [] }).state.extracted_intelligence) := by
  have hguard : getOrCreateSession (some st) sid hist = st := by
    unfold getOrCreateSession
    dsimp only
    rw [if_neg]
    rintro ⟨-, hlt⟩
    omega
  have hguard2 : getOrCreateSession (some st) sid [] = st := by
    unfold getOrCreateSession
    dsimp only
    rw [if_neg]
    rintro ⟨h, -⟩
    exact h rfl
  have heq : processTurn (some st) sid { inp with history := hist } =
      processTurn (some st) sid { inp with history := [] } := by
    unfold processTurn
    dsimp only
    rw [hguard, hguard2]
  rw [heq]
  exact ⟨rfl, rfl⟩

/-- Witness for C5: a one-element stale history against a record that
already holds one message. -/
theorem C5_stale_history_ignored_witness :
    ((processTurn (some demoStateC2) "s-2" { demoTurnA with history := demoStaleHist }).state.turn_count =
      (processTurn (some demoStateC2) "s-2" { demoTurnA with history := [] }).state.turn_count) ∧
    ((processTurn (some demoStateC2) "s-2" { demoTurnA with history := demoStaleHist }).state.extracted_intelligence =
      (processTurn (some demoStateC2) "s-2" { demoTurnA with history := [] }).state.extracted_intelligence) :=
  C5_stale_history_ignored demoStateC2 "s-2" demoTurnA demoStaleHist
    (by decide) (by decide)

/-- Claim C6 counterexample: when the first turn's classification verdict
is "not a scam", the classifier is consulted again on the session's second
turn — the claim's "invoked on the first turn of the session only" is false
on the code. -/
theorem C6_counterexample :
    ((processTurn none "s-6" demoTurnA).state.turn_count = 2) ∧
    ((processTurn (some (processTurn none "s-6" demoTurnA).state) "s-6"
        demoTurnA).classifierInvoked = true) := by decide

/-- Claim C6 amended: the classification collaborator is invoked on a turn
iff `scamDetected` is still false when the turn is processed (so on every
turn until a classification returns true, not only on the first turn); and
`scamDetected` after the turn is the disjunction of its prior value and the
classifier verdict — a false-to-true latch that never reverts and is never
re-evaluated once set. -/
theorem C6_scam_latch (st? : Option ConversationState) (sid : String)
    (inp : TurnInput) :
    ((processTurn st? sid inp).classifierInvoked = !(baseScam st?)) ∧
    ((processTurn st? sid inp).state.scam_detected =
      (baseScam st? || inp.classifyIsScam)) :=
  ⟨invoked_processTurn st? sid inp, scam_processTurn st? sid inp⟩

/-- Claim C7: `extract_intelligence` is total by construction (the
embedding is a Lean function, the formal counterpart of "never raises");
on non-string input (`none`, covering Python `None` and any non-`str`
value) and on the empty string it returns the `ExtractionResult` whose six
sets are all empty and whose `hasIntelligence` is false; and it is
deterministic — being a pure function, equal inputs give equal results. -/
theorem C7_extract_total (o : Option String) :
    (extract_intelligence none = emptyExtraction) ∧
    (extract_intelligence (some "") = emptyExtraction) ∧
    (emptyExtraction.bank_accounts = [] ∧ emptyExtraction.upi_ids = [] ∧
      emptyExtraction.phone_numbers = [] ∧
      emptyExtraction.phishing_links = [] ∧ emptyExtraction.emails = [] ∧
      emptyExtraction.ifsc_codes = [] ∧
      emptyExtraction.has_intelligence = false) ∧
    (extract_intelligence o = extract_intelligence o) :=
  ⟨rfl, by decide, by decide, rfl⟩

/-- For non-empty text, the fields of `extract_intelligence` are the
individual recognizers' outputs. -/
theorem EI_fields_some {t : String} (ht : ¬ t.isEmpty = true) :
    (extract_intelligence (some t)).bank_accounts = extract_bank_accounts t ∧
    (extract_intelligence (some t)).phone_numbers = extract_phone_numbers t := by
  unfold extract_intelligence
  dsimp only
  rw [if_neg ht]
  exact ⟨rfl, rfl⟩

/-- Claim C1 counterexample: the end-to-end scenario's first turn extracts
RoutingCode `"SBIN0001234"` (it is in the `ExtractionResult`'s
`ifsc_codes`), yet after the turn is processed the merged record contains
that finding in none of its components — `_extract_and_merge` never reads
the `emails` or `ifsc_codes` of an extraction result, so Email and
RoutingCode findings are dropped, contradicting "no finding of any kind is
ever dropped from the merged set". -/
theorem C1_counterexample :
    ("SBIN0001234" ∈ (extract_intelligence (some e2eTurn1)).ifsc_codes) ∧
    ("SBIN0001234" ∉ allIntelValues demoStateC1.extracted_intelligence) := by
  decide

/-- Claim C1 amended: after any sequence of processed turns and history
reconciliations starting from a fresh record, the merged intelligence
dictionary equals, per stored kind (BankAccount, UpiId, PhoneNumber, Url,
plus the suspicious-keyword list), the union of the extraction results of
every Counterparty turn processed so far — no finding of a *stored* kind is
dropped and re-processing the same turn text introduces no duplicates;
Email and RoutingCode findings are not stored at all. -/
theorem C1_union_invariant (sid : String) (evs : List Event) (y : String) :
    ((runEvents (freshState sid) evs).extracted_intelligence.bankAccounts.Nodup) ∧
    ((runEvents (freshState sid) evs).extracted_intelligence.upiIds.Nodup) ∧
    ((runEvents (freshState sid) evs).extracted_intelligence.phoneNumbers.Nodup) ∧
    ((runEvents (freshState sid) evs).extracted_intelligence.phishingLinks.Nodup) ∧
    ((runEvents (freshState sid) evs).extracted_intelligence.suspiciousKeywords.Nodup) ∧
    (y ∈ (runEvents (freshState sid) evs).extracted_intelligence.bankAccounts ↔
      ∃ t, t ∈ scammerTexts evs ∧ y ∈ (extract_intelligence (some t)).bank_accounts) ∧
    (y ∈ (runEvents (freshState sid) evs).extracted_intelligence.upiIds ↔
      ∃ t, t ∈ scammerTexts evs ∧ y ∈ (extract_intelligence (some t)).upi_ids) ∧
    (y ∈ (runEvents (freshState sid) evs).extracted_intelligence.phoneNumbers ↔
      ∃ t, t ∈ scammerTexts evs ∧ y ∈ (extract_intelligence (some t)).phone_numbers) ∧
    (y ∈ (runEvents (freshState sid) evs).extracted_intelligence.phishingLinks ↔
      ∃ t, t ∈ scammerTexts evs ∧ y ∈ (extract_intelligence (some t)).phishing_links) ∧
    (y ∈ (runEvents (freshState sid) evs).extracted_intelligence.suspiciousKeywords ↔
      ∃ t, t ∈ scammerTexts evs ∧ y ∈ keywordHits t) := by
  rw [intel_runEvents]
  refine ⟨?_, ?_, ?_, ?_, ?_, ?_, ?_, ?_, ?_, ?_⟩
  · exact nodup_foldl_proj _ _ mergeIntel_bank _ _ List.nodup_nil
  · exact nodup_foldl_proj _ _ mergeIntel_upi _ _ List.nodup_nil
  · exact nodup_foldl_proj _ _ mergeIntel_phone _ _ List.nodup_nil
  · exact nodup_foldl_proj _ _ mergeIntel_links _ _ List.nodup_nil
  · exact nodup_foldl_proj _ _ mergeIntel_kw _ _ List.nodup_nil
  · rw [mem_foldl_proj _ _ mergeIntel_bank]; simp [freshState, emptyIntel]
  · rw [mem_foldl_proj _ _ mergeIntel_upi]; simp [freshState, emptyIntel]
  · rw [mem_foldl_proj _ _ mergeIntel_phone]; simp [freshState, emptyIntel]
  · rw [mem_foldl_proj _ _ mergeIntel_links]; simp [freshState, emptyIntel]
  · rw [mem_foldl_proj _ _ mergeIntel_kw]; simp [freshState, emptyIntel]

/-- Claim C2 counterexample: the record holds phone `"9876543210"` from an
earlier turn; a longer supplied history containing no intelligence triggers
the rebuild, yet the phone number is still present afterwards, while the
IntelligenceSet recomputed from the supplied history alone is empty — the
rebuild merges into, rather than replaces, the prior IntelligenceSet. -/
theorem C2_counterexample :
    (demoStateC2.messages.length < demoHistC2.length) ∧
    ((getOrCreateSession (some demoStateC2) "s-2" demoHistC2).extracted_intelligence.phoneNumbers
        = ["9876543210"]) ∧
    ((rebuildFromHistory (freshState "s-2") demoHistC2).extracted_intelligence.phoneNumbers
        = []) := by
  decide

/-- Claim C2 amended: when the supplied history's length strictly exceeds
the record's turn count, reconciliation rebuilds the turn sequence from
the supplied history in the order given and re-runs extraction over its
Counterparty turns, but the recomputed findings are merged *into* the
IntelligenceSet held before the rebuild (the result is, per kind, the
union of the prior set and the recomputation) — they do not replace it. -/
theorem C2_rebuild_merges (st : ConversationState) (sid : String)
    (hist : List HistMsg) (y : String)
    (hwf : st.turn_count = st.messages.length)
    (hgt : st.turn_count < hist.length) :
    (getOrCreateSession (some st) sid hist = rebuildFromHistory st hist) ∧
    ((rebuildFromHistory st hist).messages = hist.map
      (fun m => { role := m.sender, content := m.text, timestamp := m.timestamp })) ∧
    ((rebuildFromHistory st hist).turn_count = hist.length) ∧
    (y ∈ (rebuildFromHistory st hist).extracted_intelligence.bankAccounts ↔
      y ∈ st.extracted_intelligence.bankAccounts ∨
        ∃ t, t ∈ histScamTexts hist ∧ y ∈ (extract_intelligence (some t)).bank_accounts) ∧
    (y ∈ (rebuildFromHistory st hist).extracted_intelligence.upiIds ↔
      y ∈ st.extracted_intelligence.upiIds ∨
        ∃ t, t ∈ histScamTexts hist ∧ y ∈ (extract_intelligence (some t)).upi_ids) ∧
    (y ∈ (rebuildFromHistory st hist).extracted_intelligence.phoneNumbers ↔
      y ∈ st.extracted_intelligence.phoneNumbers ∨
        ∃ t, t ∈ histScamTexts hist ∧ y ∈ (extract_intelligence (some t)).phone_numbers) ∧
    (y ∈ (rebuildFromHistory st hist).extracted_intelligence.phishingLinks ↔
      y ∈ st.extracted_intelligence.phishingLinks ∨
        ∃ t, t ∈ histScamTexts hist ∧ y ∈ (extract_intelligence (some t)).phishing_links) ∧
    (y ∈ (rebuildFromHistory st hist).extracted_intelligence.suspiciousKeywords ↔
      y ∈ st.extracted_intelligence.suspiciousKeywords ∨
        ∃ t, t ∈ histScamTexts hist ∧ y ∈ keywordHits t) := by
  have hne : hist ≠ [] := by
    intro h; subst h; simp at hgt
  refine ⟨?_, messages_rebuild st hist, turnCount_rebuild st hist, ?_, ?_, ?_, ?_, ?_⟩
  · unfold getOrCreateSession
    dsimp only
    rw [if_pos ⟨hne, by omega⟩]
  · rw [intel_rebuild]; exact mem_foldl_proj _ _ mergeIntel_bank _ _ _
  · rw [intel_rebuild]; exact mem_foldl_proj _ _ mergeIntel_upi _ _ _
  · rw [intel_rebuild]; exact mem_foldl_proj _ _ mergeIntel_phone _ _ _
  · rw [intel_rebuild]; exact mem_foldl_proj _ _ mergeIntel_links _ _ _
  · rw [intel_rebuild]; exact mem_foldl_proj _ _ mergeIntel_kw _ _ _

/-- Witness for C2's amended claim: the rebuild is triggered, rebuilds the
two turns, and keeps the prior phone finding. -/
theorem C2_rebuild_merges_witness :
    (getOrCreateSession (some demoStateC2) "s-2" demoHistC2 =
      rebuildFromHistory demoStateC2 demoHistC2) ∧
    ((rebuildFromHistory demoStateC2 demoHistC2).turn_count = 2) ∧
    ("9876543210" ∈
      (rebuildFromHistory demoStateC2 demoHistC2).extracted_intelligence.phoneNumbers) := by
  have h := C2_rebuild_merges demoStateC2 "s-2" demoHistC2 "9876543210"
    (by decide) (by decide)
  exact ⟨h.1, by rw [h.2.2.1]; decide, (h.2.2.2.2.2.1).mpr (Or.inl (by decide))⟩

/-- Claim C4: per-kind monotonicity — over any sequence of processed turns
(each possibly carrying a history rebuild), every value present in the
record's intelligence dictionary before the sequence is still present
after it; no kind ever shrinks. -/
theorem C4_monotonicity (st : ConversationState) (sid : String)
    (inps : List TurnInput) (y : String) :
    (y ∈ st.extracted_intelligence.bankAccounts →
      y ∈ (runTurnsFrom st sid inps).extracted_intelligence.bankAccounts) ∧
    (y ∈ st.extracted_intelligence.upiIds →
      y ∈ (runTurnsFrom st sid inps).extracted_intelligence.upiIds) ∧
    (y ∈ st.extracted_intelligence.phoneNumbers →
      y ∈ (runTurnsFrom st sid inps).extracted_intelligence.phoneNumbers) ∧
    (y ∈ st.extracted_intelligence.phishingLinks →
      y ∈ (runTurnsFrom st sid inps).extracted_intelligence.phishingLinks) ∧
    (y ∈ st.extracted_intelligence.suspiciousKeywords →
      y ∈ (runTurnsFrom st sid inps).extracted_intelligence.suspiciousKeywords) := by
  induction inps generalizing st with
  | nil => exact ⟨id, id, id, id, id⟩
  | cons i inps ih =>
    have hstep := mono_processTurn st sid i y
    have hrest := ih ((processTurn (some st) sid i).state)
    exact ⟨fun h => hrest.1 (hstep.1 h),
      fun h => hrest.2.1 (hstep.2.1 h),
      fun h => hrest.2.2.1 (hstep.2.2.1 h),
      fun h => hrest.2.2.2.1 (hstep.2.2.2.1 h),
      fun h => hrest.2.2.2.2 (hstep.2.2.2.2 h)⟩

/-- Witness for C4: the phone finding survives a further processed turn. -/
theorem C4_monotonicity_witness :
    "9876543210" ∈
      (runTurnsFrom demoStateC2 "s-2" [demoTurnA]).extracted_intelligence.phoneNumbers :=
  (C4_monotonicity demoStateC2 "s-2" [demoTurnA] "9876543210").2.2.1 (by decide)

/-- Claim C8: the literal `"9876543210"` is placed in the PhoneNumber
results and not in the BankAccount results; in general no string of length
10 whose first character is `6`–`9` is ever in the BankAccount results
(every 10-digit run starting `6`–`9` is excluded as a phone number). -/
theorem C8_phone_exclusion :
    ((extract_intelligence (some "9876543210")).phone_numbers = ["9876543210"]) ∧
    ("9876543210" ∉ (extract_intelligence (some "9876543210")).bank_accounts) ∧
    (∀ text x : String, x ∈ extract_bank_accounts text → x.length = 10 →
      firstIs6789 x = false) :=
  ⟨by decide, by decide, fun _ _ hx hlen => bank_excl_of_mem hx hlen⟩

/-- Witness for C8's universally quantified part, at a 10-digit run
starting `1` (which the bank recognizer keeps). -/
theorem C8_phone_exclusion_witness :
    ("1234567890" ∈ extract_bank_accounts "1234567890") ∧
    firstIs6789 "1234567890" = false :=
  ⟨by decide, C8_phone_exclusion.2.2 "1234567890" "1234567890"
    (by decide) (by decide)⟩

/-- Claim C9 counterexample: on the text `"www.x@y.zz"` the URL recognizer
and the Email recognizer both emit the very same literal, so a single
value can appear in two different kinds' result sets — the claim's "at
most one kind" is false on the code. -/
theorem C9_counterexample :
    ("www.x@y.zz" ∈ (extract_intelligence (some demoC9text)).phishing_links) ∧
    ("www.x@y.zz" ∈ (extract_intelligence (some demoC9text)).emails) := by
  decide

/-- Claim C9 amended: the exclusion rule guarantees pairwise disjointness
only for the two kinds it relates — a literal never appears in both the
BankAccount and the PhoneNumber result sets of one extraction (other kind
pairs, such as Url/Email, can overlap). -/
theorem C9_bank_phone_disjoint (o : Option String) (x : String)
    (hb : x ∈ (extract_intelligence o).bank_accounts) :
    x ∉ (extract_intelligence o).phone_numbers := by
  cases o with
  | none =>
    intro _
    simp [extract_intelligence, emptyExtraction] at hb
  | some t =>
    by_cases ht : t.isEmpty
    · rw [show extract_intelligence (some t) = emptyExtraction from by
        unfold extract_intelligence; dsimp only; rw [if_pos ht]] at hb
      simp [emptyExtraction] at hb
    · rw [(EI_fields_some ht).1] at hb
      rw [(EI_fields_some ht).2]
      intro hp
      rcases phone_shape_of_mem hp with ⟨hlen, _, hfirst⟩
      have hf := bank_excl_of_mem hb hlen
      rw [hf] at hfirst
      exact Bool.false_ne_true hfirst

/-- Witness for C9's amended claim, at a 9-digit bank account. -/
theorem C9_bank_phone_disjoint_witness :
    ("123456789" ∈ (extract_intelligence (some "123456789")).bank_accounts) ∧
    ("123456789" ∉ (extract_intelligence (some "123456789")).phone_numbers) :=
  ⟨by decide, C9_bank_phone_disjoint (some "123456789") "123456789" (by decide)⟩

/-- Claim C10: every string returned by phone-number extraction is exactly
10 characters, all decimal digits, with first digit `6`–`9` (the `+91`/`91`
prefix, spaces and hyphens having been stripped), and the returned list has
no duplicates. -/
theorem C10_phone_normalized (text : String) :
    (∀ x, x ∈ extract_phone_numbers text →
      x.length = 10 ∧ x.data.all isDigitCh = true ∧ firstIs6789 x = true) ∧
    (extract_phone_numbers text).Nodup :=
  ⟨fun _ hx => phone_shape_of_mem hx, phone_nodup text⟩

/-- Witness for C10, on a `+91`-prefixed number with a separator. -/
theorem C10_phone_normalized_witness :
    ("9876543210" ∈ extract_phone_numbers "+91-9876543210") ∧
    (("9876543210" : String).length = 10 ∧
      ("9876543210" : String).data.all isDigitCh = true ∧
      firstIs6789 "9876543210" = true) :=
  ⟨by decide, (C10_phone_normalized "+91-9876543210").1 "9876543210" (by decide)⟩
